import Mathlib

/-!
# Verification of the sync engine of `kitchen-fridge` (early `my_tasks` version)

Shallow embedding of `src/provider.rs` (the `Provider::sync` reconciliation
pass) together with the record/collection model it operates on.

The repository's `src/data/calendar.rs` is an early stub that does not yet
contain the collection operations `sync` relies on (`add_item`, `delete_item`,
`get_tasks_modified_since`, `get_items_deleted_since`), and the `SyncSlave`
trait (`get_last_sync` / `update_last_sync`) is not part of the sources
either; those parts are modelled from the specification (see the doc comment
of each such definition).  Everything in `Provider::sync` itself is translated
directly from `src/provider.rs`.

Timestamps are modelled as naturals.  `sync` takes the wall-clock instants it
needs explicitly: `passStart` (the instant the pass begins, i.e. the instant
of the step-1 checkpoint read) and `now` (the instant used to timestamp the
tombstones that `delete_item` records during the pass).
-/

set_option autoImplicit false

namespace KitchenFridge

abbrev ItemId := Nat
abbrev Timestamp := Nat
abbrev UrlKey := Nat

/-- A task record (`Item::Task` in the sources): stable identity, display
name, last-modified timestamp, completion flag. -/
structure Item where
  id : ItemId
  name : String
  lastModified : Timestamp
  completed : Bool
deriving DecidableEq

/-- A calendar: a keyed collection of records plus the tombstones of the
records deleted from it.  The `calendar.rs` under `src/` is a stub (name and
task list only); the key (`url`) and the tombstone list are modelled from the
spec (one mapping from identity to record, plus queryable deletion facts). -/
structure Calendar where
  url : UrlKey
  items : List Item
  deleted : List (Timestamp × ItemId)
deriving DecidableEq

/-- Modelled from the spec: `Calendar::add_item` is missing from `src/`.
Per §4.1 `add` inserts a record; per the §8 scenario a record copied onto a
side that still holds the old version with the same identity ends up as the
single, new version there (e.g. D' must be present on both sides after the
sync even though the server still held D), so a duplicate-identity add
replaces the existing record. -/
def Calendar.addItem (c : Calendar) (item : Item) : Calendar :=
  { c with items := c.items.filter (fun it => !(it.id == item.id)) ++ [item] }

/-- Modelled from the spec: `Calendar::delete_item` is missing from `src/`.
Per §4.1 `deleteById` removes the record if present and records a tombstone
(§4.1 `deletedSince`, §9); deleting an absent id is an idempotent no-op.
`now` is the wall-clock instant of the deletion. -/
def Calendar.deleteItem (c : Calendar) (now : Timestamp) (id : ItemId) : Calendar :=
  if c.items.any (fun it => it.id == id) then
    { c with items := c.items.filter (fun it => !(it.id == id)),
             deleted := c.deleted ++ [(now, id)] }
  else c

/-- Modelled from the spec: `Calendar::get_tasks_modified_since` is missing
from `src/`.  Per §4.1 `modifiedSince` returns the records whose
last-modified timestamp is strictly greater than the bound, or all records
when no bound is given (first sync). -/
def Calendar.getTasksModifiedSince (c : Calendar) (since : Option Timestamp) : List Item :=
  match since with
  | none => c.items
  | some t => c.items.filter (fun it => t < it.lastModified)

/-- Modelled from the spec: `Calendar::get_items_deleted_since` is missing
from `src/`.  Per §4.1 `deletedSince` returns the identities tombstoned
strictly after the bound. -/
def Calendar.getItemsDeletedSince (c : Calendar) (since : Timestamp) : List ItemId :=
  (c.deleted.filter (fun p => since < p.1)).map (fun p => p.2)

/-- The warn/error log entries `Provider::sync` emits (provider.rs lines 49,
73, 90, 97).  The purely informational trace of `remove_from_calendar`
(line 124) is not modelled. -/
inductive LogEntry where
  /-- Line 49: a server calendar has no local counterpart
  (`log::error!("TODO: implement here")`). -/
  | todoUnpaired (url : UrlKey)
  /-- Lines 73 and 97: conflict for a task, the server version is used. -/
  | conflictServerWins (id : ItemId)
  /-- Line 90: conflict for a task locally deleted and updated in the server,
  the server version is used. -/
  | conflictLocalDeletedServerWins (id : ItemId)
deriving DecidableEq

/-- The failure modes of a sync pass. -/
inductive SyncError where
  | sourceUnreachable
deriving DecidableEq

/-- The remote source.  `reachable` models whether
`get_calendars_mut` (a possibly-failing network operation per `traits.rs`)
succeeds. -/
structure ServerSource where
  reachable : Bool
  cals : List Calendar
deriving DecidableEq

/-- The local cache source.  Modelled from the spec: the `SyncSlave`
capability (`get_last_sync` / `update_last_sync`) is not under `src/`; per
§3 the local replica holds the single last-successful-sync timestamp. -/
structure LocalSource where
  cals : List Calendar
  lastSync : Option Timestamp
deriving DecidableEq

/-- `Provider` (provider.rs lines 15-24): the remote server plus the local
cache. -/
structure Provider where
  server : ServerSource
  localSource : LocalSource
deriving DecidableEq

/-- `CalDavSource::get_calendars_mut` for the remote source (used at
provider.rs line 44): fails when the server is unreachable. -/
def getCalendarsMut (s : ServerSource) : Except SyncError (List Calendar) :=
  if s.reachable then .ok s.cals else .error .sourceUnreachable

/-- `CalDavSource::get_calendar_mut` (used at provider.rs line 47): first
calendar matching the url key. -/
def getCalendarMut (cals : List Calendar) (url : UrlKey) : Option Calendar :=
  cals.find? (fun c => c.url == url)

/-- `remove_from_calendar` (provider.rs lines 122-127): delete each id in
turn. -/
def removeFromCalendar (now : Timestamp) (ids : List ItemId) (cal : Calendar) : Calendar :=
  ids.foldl (fun c id => c.deleteItem now id) cal

/-- `move_to_calendar` (provider.rs lines 115-120): add each item in turn. -/
def moveToCalendar (items : List Item) (cal : Calendar) : Calendar :=
  items.foldl (fun c it => c.addItem it) cal

/-- `server_del` (provider.rs lines 56-59): remote deletions since the
checkpoint, or none on a first sync. -/
def serverDelOf (lastSync : Option Timestamp) (calServer : Calendar) : List ItemId :=
  match lastSync with
  | some date => calServer.getItemsDeletedSince date
  | none => []

/-- `local_del` (provider.rs lines 60-63): local deletions since the
checkpoint, or none on a first sync. -/
def localDelOf (lastSync : Option Timestamp) (calLocal : Calendar) : List ItemId :=
  match lastSync with
  | some date => calLocal.getItemsDeletedSince date
  | none => []

/-- The pull loop (provider.rs lines 66-77): starting from `server_del`,
walk `server_mod`; the conflict check of line 72 tests
`server_mod.contains_key(new_id)` (note: the map being iterated itself), and
on success logs the conflict and queues the id for removal from the local
calendar; every server-modified item is queued for addition to the local
calendar.  Returns (ids to remove from local, items to add to local, logs). -/
def pullPlan (serverMod : List Item) (serverDel : List ItemId) :
    List ItemId × List Item × List LogEntry :=
  serverMod.foldl
    (fun acc it =>
      if serverMod.any (fun j => j.id == it.id) then
        (acc.1 ++ [it.id], acc.2.1 ++ [it], acc.2.2 ++ [.conflictServerWins it.id])
      else
        (acc.1, acc.2.1 ++ [it], acc.2.2))
    (serverDel, [], [])

/-- The push deletion loop (provider.rs lines 88-94): a locally deleted id
that the server also modified is a conflict (server wins, logged, skipped);
otherwise it is queued for removal from the server. -/
def pushDelPlan (serverMod : List Item) (localDel : List ItemId) :
    List ItemId × List LogEntry :=
  localDel.foldl
    (fun acc deletedId =>
      if serverMod.any (fun j => j.id == deletedId) then
        (acc.1, acc.2 ++ [.conflictLocalDeletedServerWins deletedId])
      else
        (acc.1 ++ [deletedId], acc.2))
    ([], [])

/-- The push modification loop (provider.rs lines 95-101): a locally
modified item that the server also modified is a conflict (server wins,
logged, skipped); otherwise it is queued for addition to the server. -/
def pushModPlan (serverMod : List Item) (localMod : List Item) :
    List Item × List LogEntry :=
  localMod.foldl
    (fun acc it =>
      if serverMod.any (fun j => j.id == it.id) then
        (acc.1, acc.2 ++ [.conflictServerWins it.id])
      else
        (acc.1 ++ [it], acc.2))
    ([], [])

/-- The local calendar right after line 79: the pull-phase removals
(`tasks_id_to_remove_from_local`) applied to it. -/
def localAfterPull (lastSync : Option Timestamp) (now : Timestamp)
    (calServer calLocal : Calendar) : Calendar :=
  removeFromCalendar now
    (pullPlan (calServer.getTasksModifiedSince lastSync) (serverDelOf lastSync calServer)).1
    calLocal

/-- `local_mod` as the code actually computes it (provider.rs line 84):
`get_tasks_modified_since` on the local calendar after the pull-phase
removals of line 79 have already mutated it. -/
def localModUsed (lastSync : Option Timestamp) (now : Timestamp)
    (calServer calLocal : Calendar) : List Item :=
  (localAfterPull lastSync now calServer calLocal).getTasksModifiedSince lastSync

/-- One collection pair of the sync pass (provider.rs lines 55-105).
Returns (new server calendar, new local calendar, logs). -/
def syncCal (lastSync : Option Timestamp) (now : Timestamp)
    (calServer calLocal : Calendar) : Calendar × Calendar × List LogEntry :=
  let serverMod := calServer.getTasksModifiedSince lastSync
  let pull := pullPlan serverMod (serverDelOf lastSync calServer)
  let pushDel := pushDelPlan serverMod (localDelOf lastSync calLocal)
  let pushMod := pushModPlan serverMod (localModUsed lastSync now calServer calLocal)
  (moveToCalendar pushMod.1 (removeFromCalendar now pushDel.1 calServer),
   moveToCalendar pull.2.1 (localAfterPull lastSync now calServer calLocal),
   pull.2.2 ++ pushDel.2 ++ pushMod.2)

/-- Replace the first calendar with the given url (mutation through the
`&mut Calendar` reference `get_calendar_mut` hands out). -/
def replaceFirst (c : Calendar) : List Calendar → List Calendar
  | [] => []
  | x :: xs => if x.url == c.url then c :: xs else x :: replaceFirst c xs

/-- The per-calendar loop of `sync` (provider.rs lines 46-106): for each
server calendar, look up the local counterpart by url; when none exists, log
(line 49) and continue; otherwise reconcile the pair, the mutation of the
local calendar being visible to the remaining iterations.  Returns (new
server calendars, new local calendars, logs). -/
def syncCals (lastSync : Option Timestamp) (now : Timestamp) :
    List Calendar → List Calendar → List Calendar × List Calendar × List LogEntry
  | [], locals => ([], locals, [])
  | calServer :: rest, locals =>
    match getCalendarMut locals calServer.url with
    | none =>
      let r := syncCals lastSync now rest locals
      (calServer :: r.1, r.2.1, .todoUnpaired calServer.url :: r.2.2)
    | some calLocal =>
      let sc := syncCal lastSync now calServer calLocal
      let r := syncCals lastSync now rest (replaceFirst sc.2.1 locals)
      (sc.1 :: r.1, r.2.1, sc.2.2 ++ r.2.2)

/-- `Provider::sync` (provider.rs lines 42-111).  Reads the checkpoint
(line 43), lists the server calendars (line 44, aborting the pass on
failure with the provider untouched), reconciles each pair, and finally
(line 108) advances the checkpoint: `update_last_sync(None)` is modelled
from the spec (the `SyncSlave` implementation is not under `src/`), which
fixes the new checkpoint to the pass's start time — the instant of the
step-1 read — not the time `sync` returns (§4.2 step 6). -/
def sync (passStart now : Timestamp) (p : Provider) :
    Except SyncError Unit × Provider × List LogEntry :=
  match getCalendarsMut p.server with
  | .error e => (.error e, p, [])
  | .ok calsServer =>
    let r := syncCals p.localSource.lastSync now calsServer p.localSource.cals
    (.ok (),
     { server := { p.server with cals := r.1 },
       localSource := { cals := r.2.1, lastSync := some passStart } },
     r.2.2)

/-- No record with identity `i` occurs in the list. -/
abbrev NoId (i : ItemId) (l : List Item) : Prop := ∀ it ∈ l, it.id ≠ i

/-- `v` is present and is the unique record with identity `i` in the list. -/
abbrev OnlyAt (i : ItemId) (v : Item) (l : List Item) : Prop :=
  v.id = i ∧ v ∈ l ∧ ∀ it ∈ l, it.id = i → it = v

theorem deleteItem_items (c : Calendar) (now : Timestamp) (id : ItemId) :
    (c.deleteItem now id).items = c.items.filter (fun it => !(it.id == id)) := by
  unfold Calendar.deleteItem
  split
  · rfl
  · next h =>
    have h2 : ∀ a ∈ c.items, (!(a.id == id)) = true := by
      intro a ha
      by_contra hc
      exact h (List.any_eq_true.mpr ⟨a, ha, by simpa using hc⟩)
    exact (List.filter_eq_self.mpr h2).symm

theorem removeFromCalendar_items (now : Timestamp) (ids : List ItemId) (cal : Calendar) :
    (removeFromCalendar now ids cal).items
      = cal.items.filter (fun it => !(ids.any (fun j => it.id == j))) := by
  induction ids generalizing cal with
  | nil => simp [removeFromCalendar]
  | cons id rest ih =>
    have hstep : removeFromCalendar now (id :: rest) cal
        = removeFromCalendar now rest (cal.deleteItem now id) := rfl
    rw [hstep, ih, deleteItem_items, List.filter_filter]
    apply List.filter_congr
    intro a _
    simp [Bool.not_or, Bool.and_comm]

theorem removeFromCalendar_subset (now : Timestamp) (ids : List ItemId) (cal : Calendar) :
    ∀ it ∈ (removeFromCalendar now ids cal).items, it ∈ cal.items := by
  intro it hit
  rw [removeFromCalendar_items] at hit
  exact (List.mem_filter.mp hit).1

theorem addItem_items (c : Calendar) (it : Item) :
    (c.addItem it).items = c.items.filter (fun j => !(j.id == it.id)) ++ [it] := rfl

theorem addItem_deleted (c : Calendar) (it : Item) : (c.addItem it).deleted = c.deleted := rfl

theorem moveToCalendar_deleted (items : List Item) (c : Calendar) :
    (moveToCalendar items c).deleted = c.deleted := by
  induction items generalizing c with
  | nil => rfl
  | cons a rest ih => exact ih (c.addItem a)

theorem serverMod_self_any (serverMod : List Item) :
    ∀ it ∈ serverMod, serverMod.any (fun j => j.id == it.id) = true := by
  intro it hit
  exact List.any_eq_true.mpr ⟨it, hit, by simp⟩

theorem pullFold_go (serverMod : List Item) (l : List Item)
    (h : ∀ it ∈ l, serverMod.any (fun j => j.id == it.id) = true) :
    ∀ acc : List ItemId × List Item × List LogEntry,
      l.foldl (fun acc it =>
        if serverMod.any (fun j => j.id == it.id) then
          (acc.1 ++ [it.id], acc.2.1 ++ [it], acc.2.2 ++ [.conflictServerWins it.id])
        else (acc.1, acc.2.1 ++ [it], acc.2.2)) acc
      = (acc.1 ++ l.map Item.id, acc.2.1 ++ l,
         acc.2.2 ++ l.map fun it => LogEntry.conflictServerWins it.id) := by
  induction l with
  | nil => intro acc; simp
  | cons a rest ih =>
    intro acc
    rw [List.foldl_cons, if_pos (h a (by simp))]
    rw [ih (fun it hit => h it (by simp [hit]))]
    simp

theorem pullPlan_char (serverMod : List Item) (serverDel : List ItemId) :
    pullPlan serverMod serverDel
      = (serverDel ++ serverMod.map Item.id, serverMod,
         serverMod.map fun it => LogEntry.conflictServerWins it.id) := by
  unfold pullPlan
  rw [pullFold_go serverMod serverMod (serverMod_self_any serverMod)]
  simp

theorem pushDelFold_go (serverMod : List Item) (l : List ItemId) :
    ∀ acc : List ItemId × List LogEntry,
      l.foldl (fun acc deletedId =>
        if serverMod.any (fun j => j.id == deletedId) then
          (acc.1, acc.2 ++ [.conflictLocalDeletedServerWins deletedId])
        else (acc.1 ++ [deletedId], acc.2)) acc
      = (acc.1 ++ l.filter (fun d => !(serverMod.any (fun j => j.id == d))),
         acc.2 ++ (l.filter (fun d => serverMod.any (fun j => j.id == d))).map
           fun d => LogEntry.conflictLocalDeletedServerWins d) := by
  induction l with
  | nil => intro acc; simp
  | cons a rest ih =>
    intro acc
    rw [List.foldl_cons]
    by_cases hcond : serverMod.any (fun j => j.id == a) = true
    · rw [if_pos hcond, ih]
      simp [List.filter_cons, hcond]
    · have hb : serverMod.any (fun j => j.id == a) = false := by simpa using hcond
      rw [if_neg hcond, ih]
      simp [List.filter_cons, hb]

theorem pushDelPlan_char (serverMod : List Item) (localDel : List ItemId) :
    pushDelPlan serverMod localDel
      = (localDel.filter (fun d => !(serverMod.any (fun j => j.id == d))),
         (localDel.filter (fun d => serverMod.any (fun j => j.id == d))).map
           fun d => LogEntry.conflictLocalDeletedServerWins d) := by
  unfold pushDelPlan
  rw [pushDelFold_go]
  simp

theorem pushModFold_go (serverMod : List Item) (l : List Item) :
    ∀ acc : List Item × List LogEntry,
      l.foldl (fun acc it =>
        if serverMod.any (fun j => j.id == it.id) then
          (acc.1, acc.2 ++ [.conflictServerWins it.id])
        else (acc.1 ++ [it], acc.2)) acc
      = (acc.1 ++ l.filter (fun it => !(serverMod.any (fun j => j.id == it.id))),
         acc.2 ++ (l.filter (fun it => serverMod.any (fun j => j.id == it.id))).map
           fun it => LogEntry.conflictServerWins it.id) := by
  induction l with
  | nil => intro acc; simp
  | cons a rest ih =>
    intro acc
    rw [List.foldl_cons]
    by_cases hcond : serverMod.any (fun j => j.id == a.id) = true
    · rw [if_pos hcond, ih]
      simp [List.filter_cons, hcond]
    · have hb : serverMod.any (fun j => j.id == a.id) = false := by simpa using hcond
      rw [if_neg hcond, ih]
      simp [List.filter_cons, hb]

theorem pushModPlan_char (serverMod : List Item) (localMod : List Item) :
    pushModPlan serverMod localMod
      = (localMod.filter (fun it => !(serverMod.any (fun j => j.id == it.id))),
         (localMod.filter (fun it => serverMod.any (fun j => j.id == it.id))).map
           fun it => LogEntry.conflictServerWins it.id) := by
  unfold pushModPlan
  rw [pushModFold_go]
  simp

theorem noId_addItem {i : ItemId} {c : Calendar} {v : Item} (hv : v.id ≠ i)
    (h : NoId i c.items) : NoId i ((c.addItem v).items) := by
  intro it hit
  rw [addItem_items] at hit
  rcases List.mem_append.mp hit with h1 | h1
  · exact h it (List.mem_filter.mp h1).1
  · rw [List.mem_singleton.mp h1]; exact hv

theorem noId_moveToCalendar {i : ItemId} {adds : List Item} {c : Calendar}
    (hadds : ∀ v ∈ adds, v.id ≠ i) (h : NoId i c.items) :
    NoId i ((moveToCalendar adds c).items) := by
  induction adds generalizing c with
  | nil => exact h
  | cons a rest ih =>
    exact ih (fun v hv => hadds v (by simp [hv])) (noId_addItem (hadds a (by simp)) h)

theorem noId_filter {i : ItemId} {l : List Item} (p : Item → Bool) (h : NoId i l) :
    NoId i (l.filter p) := fun it hit => h it (List.mem_filter.mp hit).1

theorem onlyAt_addItem_self {c : Calendar} {v : Item} :
    OnlyAt v.id v ((c.addItem v).items) := by
  refine ⟨rfl, ?_, ?_⟩
  · rw [addItem_items]; exact List.mem_append.mpr (Or.inr (by simp))
  · intro it hit hid
    rw [addItem_items] at hit
    rcases List.mem_append.mp hit with h1 | h1
    · have h2 := (List.mem_filter.mp h1).2
      simp [hid] at h2
    · exact List.mem_singleton.mp h1

theorem onlyAt_addItem_other {i : ItemId} {c : Calendar} {v w : Item} (hw : w.id ≠ i)
    (h : OnlyAt i v c.items) : OnlyAt i v ((c.addItem w).items) := by
  obtain ⟨hvid, hvmem, huniq⟩ := h
  refine ⟨hvid, ?_, ?_⟩
  · rw [addItem_items]
    refine List.mem_append.mpr (Or.inl (List.mem_filter.mpr ⟨hvmem, ?_⟩))
    simp only [Bool.not_eq_eq_eq_not, Bool.not_true, beq_eq_false_iff_ne]
    rw [hvid]
    exact fun hh => hw hh.symm
  · intro it hit hid
    rw [addItem_items] at hit
    rcases List.mem_append.mp hit with h1 | h1
    · exact huniq it (List.mem_filter.mp h1).1 hid
    · exact absurd ((List.mem_singleton.mp h1) ▸ hid) hw

theorem onlyAt_moveToCalendar_other {i : ItemId} {adds : List Item} {c : Calendar} {v : Item}
    (hadds : ∀ w ∈ adds, w.id ≠ i) (h : OnlyAt i v c.items) :
    OnlyAt i v ((moveToCalendar adds c).items) := by
  induction adds generalizing c with
  | nil => exact h
  | cons a rest ih =>
    exact ih (fun w hw => hadds w (by simp [hw])) (onlyAt_addItem_other (hadds a (by simp)) h)

theorem onlyAt_moveToCalendar_mem {adds : List Item} {c : Calendar} {v : Item}
    (hnd : (adds.map Item.id).Nodup) (hmem : v ∈ adds) :
    OnlyAt v.id v ((moveToCalendar adds c).items) := by
  induction adds generalizing c with
  | nil => cases hmem
  | cons a rest ih =>
    rw [List.map_cons, List.nodup_cons] at hnd
    rcases List.mem_cons.mp hmem with rfl | hmem'
    · have hrest : ∀ w ∈ rest, w.id ≠ v.id := by
        intro w hw heq
        exact hnd.1 (List.mem_map.mpr ⟨w, hw, heq⟩)
      show OnlyAt v.id v ((moveToCalendar rest (c.addItem v)).items)
      exact onlyAt_moveToCalendar_other hrest onlyAt_addItem_self
    · exact ih hnd.2 hmem'

theorem onlyAt_filter {i : ItemId} {l : List Item} {v : Item} (p : Item → Bool)
    (hp : p v = true) (h : OnlyAt i v l) : OnlyAt i v (l.filter p) := by
  obtain ⟨hvid, hvmem, huniq⟩ := h
  exact ⟨hvid, List.mem_filter.mpr ⟨hvmem, hp⟩,
    fun it hit hid => huniq it (List.mem_filter.mp hit).1 hid⟩

theorem mem_addItem_other {c : Calendar} {v w : Item} (h : v ∈ c.items)
    (hne : w.id ≠ v.id) : v ∈ ((c.addItem w).items) := by
  rw [addItem_items]
  refine List.mem_append.mpr (Or.inl (List.mem_filter.mpr ⟨h, ?_⟩))
  simp only [Bool.not_eq_eq_eq_not, Bool.not_true, beq_eq_false_iff_ne]
  exact fun hh => hne hh.symm

theorem mem_moveToCalendar_other {adds : List Item} {c : Calendar} {v : Item}
    (h : v ∈ c.items) (hadds : ∀ w ∈ adds, w.id ≠ v.id) :
    v ∈ ((moveToCalendar adds c).items) := by
  induction adds generalizing c with
  | nil => exact h
  | cons a rest ih =>
    exact ih (mem_addItem_other h (hadds a (by simp))) (fun w hw => hadds w (by simp [hw]))

theorem nodup_id_unique {l : List Item} (hnd : (l.map Item.id).Nodup) {v : Item}
    (hv : v ∈ l) : ∀ it ∈ l, it.id = v.id → it = v := by
  induction l with
  | nil => cases hv
  | cons a rest ih =>
    rw [List.map_cons, List.nodup_cons] at hnd
    intro it hit hid
    rcases List.mem_cons.mp hit with rfl | hit'
    · rcases List.mem_cons.mp hv with rfl | hv'
      · rfl
      · exact absurd (List.mem_map.mpr ⟨v, hv', hid.symm⟩) hnd.1
    · rcases List.mem_cons.mp hv with rfl | hv'
      · exact absurd (List.mem_map.mpr ⟨it, hit', hid⟩) hnd.1
      · exact ih hnd.2 hv' it hit' hid

theorem nodupIds_filter {l : List Item} (p : Item → Bool) (hnd : (l.map Item.id).Nodup) :
    ((l.filter p).map Item.id).Nodup :=
  List.Nodup.sublist (List.Sublist.map Item.id (List.filter_sublist l)) hnd

theorem getTasksModifiedSince_subset {c : Calendar} {ls : Option Timestamp} :
    ∀ it ∈ c.getTasksModifiedSince ls, it ∈ c.items := by
  intro it hit
  cases ls with
  | none => exact hit
  | some t => exact (List.mem_filter.mp hit).1

theorem mem_getTasksModifiedSince {c : Calendar} {t : Timestamp} {it : Item}
    (h : it ∈ c.items) (hm : t < it.lastModified) :
    it ∈ c.getTasksModifiedSince (some t) :=
  List.mem_filter.mpr ⟨h, by simpa using hm⟩

theorem getTasksModifiedSince_lt {c : Calendar} {t : Timestamp} :
    ∀ it ∈ c.getTasksModifiedSince (some t), t < it.lastModified := by
  intro it hit
  simpa using (List.mem_filter.mp hit).2

theorem mem_getItemsDeletedSince {c : Calendar} {t td : Timestamp} {i : ItemId}
    (h : (td, i) ∈ c.deleted) (ht : t < td) :
    i ∈ c.getItemsDeletedSince t :=
  List.mem_map.mpr ⟨(td, i), List.mem_filter.mpr ⟨h, by simpa using ht⟩, rfl⟩

theorem not_mem_getItemsDeletedSince {c : Calendar} {t : Timestamp} {i : ItemId}
    (h : ∀ p ∈ c.deleted, p.2 = i → p.1 ≤ t) : i ∉ c.getItemsDeletedSince t := by
  intro hmem
  obtain ⟨p, hp, hpi⟩ := List.mem_map.mp hmem
  have hlt : t < p.1 := by simpa using (List.mem_filter.mp hp).2
  exact absurd (h p (List.mem_filter.mp hp).1 hpi) (not_le.mpr hlt)

theorem serverMod_any_eq_false {c : Calendar} {t : Timestamp} {i : ItemId}
    (h : ∀ it ∈ c.items, it.id = i → it.lastModified ≤ t) :
    (c.getTasksModifiedSince (some t)).any (fun j => j.id == i) = false := by
  rw [List.any_eq_false]
  intro j hj
  simp only [beq_iff_eq]
  intro hji
  exact absurd (h j (getTasksModifiedSince_subset j hj) hji)
    (not_le.mpr (getTasksModifiedSince_lt j hj))

theorem syncCal_server (ls : Option Timestamp) (now : Timestamp) (s l : Calendar) :
    (syncCal ls now s l).1
      = moveToCalendar (pushModPlan (s.getTasksModifiedSince ls) (localModUsed ls now s l)).1
          (removeFromCalendar now
            (pushDelPlan (s.getTasksModifiedSince ls) (localDelOf ls l)).1 s) := rfl

theorem syncCal_local (ls : Option Timestamp) (now : Timestamp) (s l : Calendar) :
    (syncCal ls now s l).2.1
      = moveToCalendar (pullPlan (s.getTasksModifiedSince ls) (serverDelOf ls s)).2.1
          (localAfterPull ls now s l) := rfl

theorem syncCal_logs (ls : Option Timestamp) (now : Timestamp) (s l : Calendar) :
    (syncCal ls now s l).2.2
      = (pullPlan (s.getTasksModifiedSince ls) (serverDelOf ls s)).2.2
        ++ (pushDelPlan (s.getTasksModifiedSince ls) (localDelOf ls l)).2
        ++ (pushModPlan (s.getTasksModifiedSince ls) (localModUsed ls now s l)).2 := rfl

theorem noId_removeFromCalendar {i : ItemId} {ids : List ItemId} (now : Timestamp)
    (c : Calendar) (h : i ∈ ids) : NoId i ((removeFromCalendar now ids c).items) := by
  rw [removeFromCalendar_items]
  intro it hit hii
  have h2 := (List.mem_filter.mp hit).2
  rw [List.any_eq_true.mpr ⟨i, h, by simp [hii]⟩] at h2
  simp at h2

theorem noId_localAfterPull {i : ItemId} (ls : Option Timestamp) (now : Timestamp)
    (s l : Calendar)
    (h : i ∈ (pullPlan (s.getTasksModifiedSince ls) (serverDelOf ls s)).1) :
    NoId i ((localAfterPull ls now s l).items) :=
  noId_removeFromCalendar now l h

theorem localAfterPull_subset (ls : Option Timestamp) (now : Timestamp) (s l : Calendar) :
    ∀ it ∈ (localAfterPull ls now s l).items, it ∈ l.items :=
  removeFromCalendar_subset now
    (pullPlan (s.getTasksModifiedSince ls) (serverDelOf ls s)).1 l

theorem noId_getTasksModifiedSince {i : ItemId} {c : Calendar} {ls : Option Timestamp}
    (h : NoId i c.items) : NoId i (c.getTasksModifiedSince ls) :=
  fun it hit => h it (getTasksModifiedSince_subset it hit)

theorem noId_of_any_eq_false {sm : List Item} {i : ItemId}
    (h : sm.any (fun j => j.id == i) = false) : ∀ w ∈ sm, w.id ≠ i := by
  intro w hw hwi
  rw [List.any_eq_true.mpr ⟨w, hw, by simp [hwi]⟩] at h
  cases h

theorem mem_getItemsDeletedSince_of_pair {c : Calendar} {t : Timestamp} {i : ItemId}
    (h : ∃ p ∈ c.deleted, p.2 = i ∧ t < p.1) : i ∈ c.getItemsDeletedSince t := by
  obtain ⟨p, hp, hpi, hpt⟩ := h
  exact List.mem_map.mpr ⟨p, List.mem_filter.mpr ⟨hp, by simpa using hpt⟩, hpi⟩

theorem nodupIds_getTasksModifiedSince {c : Calendar} {ls : Option Timestamp}
    (hnd : (c.items.map Item.id).Nodup) :
    ((c.getTasksModifiedSince ls).map Item.id).Nodup := by
  cases ls with
  | none => exact hnd
  | some t => exact nodupIds_filter _ hnd

/-- The server always wins: a server record modified since the checkpoint ends
up as the unique record with its identity in the post-sync local calendar
(pulled via remove-then-re-add, provider.rs lines 71-79 and 104). -/
theorem serverWins_local (t0 now : Timestamp) (s l : Calendar) (v : Item)
    (hnds : (s.items.map Item.id).Nodup)
    (hsmem : v ∈ s.items) (hsmod : t0 < v.lastModified) :
    OnlyAt v.id v ((syncCal (some t0) now s l).2.1).items := by
  have hvs_sm : v ∈ s.getTasksModifiedSince (some t0) :=
    mem_getTasksModifiedSince hsmem hsmod
  have hsm_nodup : ((s.getTasksModifiedSince (some t0)).map Item.id).Nodup :=
    nodupIds_getTasksModifiedSince hnds
  rw [syncCal_local, pullPlan_char]
  exact onlyAt_moveToCalendar_mem hsm_nodup hvs_sm

/-- The server always wins: a server record modified since the checkpoint
stays the unique record with its identity on the server (never removed — the
conflict guards of provider.rs lines 89 and 96 skip its id — and never
overwritten by a push). -/
theorem serverWins_server (t0 now : Timestamp) (s l : Calendar) (v : Item)
    (hnds : (s.items.map Item.id).Nodup)
    (hsmem : v ∈ s.items) (hsmod : t0 < v.lastModified) :
    OnlyAt v.id v ((syncCal (some t0) now s l).1).items := by
  have hvs_sm : v ∈ s.getTasksModifiedSince (some t0) :=
    mem_getTasksModifiedSince hsmem hsmod
  have hsany : (s.getTasksModifiedSince (some t0)).any (fun j => j.id == v.id) = true :=
    List.any_eq_true.mpr ⟨v, hvs_sm, by simp⟩
  have hbase : OnlyAt v.id v s.items := ⟨rfl, hsmem, nodup_id_unique hnds hsmem⟩
  have hpush_ne : ∀ j ∈ (pushDelPlan (s.getTasksModifiedSince (some t0))
      (localDelOf (some t0) l)).1, j ≠ v.id := by
    intro j hj hji
    rw [pushDelPlan_char] at hj
    have h2 := (List.mem_filter.mp hj).2
    rw [hji, hsany] at h2
    simp at h2
  have hmid : OnlyAt v.id v
      ((removeFromCalendar now (pushDelPlan (s.getTasksModifiedSince (some t0))
        (localDelOf (some t0) l)).1 s).items) := by
    rw [removeFromCalendar_items]
    apply onlyAt_filter _ ?_ hbase
    simp only [Bool.not_eq_eq_eq_not, Bool.not_true]
    rw [List.any_eq_false]
    intro j hj
    simp only [beq_iff_eq]
    exact fun hh => hpush_ne j hj hh.symm
  have hNoLocal1 : NoId v.id ((localAfterPull (some t0) now s l).items) := by
    apply noId_localAfterPull
    rw [pullPlan_char]
    exact List.mem_append.mpr (Or.inr (List.mem_map.mpr ⟨v, hvs_sm, rfl⟩))
  have hNoUsed : NoId v.id (localModUsed (some t0) now s l) :=
    fun it hit => hNoLocal1 it (getTasksModifiedSince_subset it hit)
  have hAdds : ∀ w ∈ (pushModPlan (s.getTasksModifiedSince (some t0))
      (localModUsed (some t0) now s l)).1, w.id ≠ v.id := by
    intro w hw
    rw [pushModPlan_char] at hw
    exact hNoUsed w (List.mem_filter.mp hw).1
  rw [syncCal_server]
  exact onlyAt_moveToCalendar_other hAdds hmid

/-- A locally deleted identity not modified on the server is removed from the
server calendar and not re-added (provider.rs lines 88-94 and 103). -/
theorem localDeleteWins_server (t0 now : Timestamp) (s l : Calendar) (i : ItemId)
    (hdel : ∃ p ∈ l.deleted, p.2 = i ∧ t0 < p.1)
    (hsold : ∀ it ∈ s.items, it.id = i → it.lastModified ≤ t0)
    (hnol : NoId i l.items) :
    NoId i ((syncCal (some t0) now s l).1).items := by
  have hsmfalse := serverMod_any_eq_false hsold
  have hidel : i ∈ l.getItemsDeletedSince t0 := mem_getItemsDeletedSince_of_pair hdel
  have hipush : i ∈ (pushDelPlan (s.getTasksModifiedSince (some t0))
      (localDelOf (some t0) l)).1 := by
    rw [pushDelPlan_char]
    refine List.mem_filter.mpr ⟨hidel, ?_⟩
    rw [hsmfalse]
    rfl
  have hbase : NoId i ((removeFromCalendar now (pushDelPlan (s.getTasksModifiedSince (some t0))
      (localDelOf (some t0) l)).1 s).items) :=
    noId_removeFromCalendar now s hipush
  have hNoLocal1 : NoId i ((localAfterPull (some t0) now s l).items) :=
    fun it hit => hnol it (localAfterPull_subset _ _ _ _ it hit)
  have hNoUsed : NoId i (localModUsed (some t0) now s l) :=
    fun it hit => hNoLocal1 it (getTasksModifiedSince_subset it hit)
  have hAdds : ∀ w ∈ (pushModPlan (s.getTasksModifiedSince (some t0))
      (localModUsed (some t0) now s l)).1, w.id ≠ i := by
    intro w hw
    rw [pushModPlan_char] at hw
    exact hNoUsed w (List.mem_filter.mp hw).1
  rw [syncCal_server]
  exact noId_moveToCalendar hAdds hbase

/-- Two-pass scenario used to exhibit the idempotence failure: one paired
calendar (url 0); the same record (id 1) on both sides; the server copy was
modified (lastModified 5) after the checkpoint (3); the local copy is the
stale original (lastModified 1). -/
def twoPassStart : Provider :=
  { server :=
      { reachable := true,
        cals :=
          [{ url := 0,
             items := [{ id := 1, name := "", lastModified := 5, completed := false }],
             deleted := [] }] },
    localSource :=
      { cals :=
          [{ url := 0,
             items := [{ id := 1, name := "", lastModified := 1, completed := false }],
             deleted := [] }],
        lastSync := some 3 } }

/-- Claim C2 (refuted — code bug): running `sync` twice with no intervening
mutation does not leave the state of the first run intact.  The first pass
(start 10, in-pass deletions timestamped 11) pulls the server-modified record
by deleting it from the local calendar and re-adding the server version,
which leaves a local tombstone at time 11 — after the new checkpoint 10.  The
second pass (start 20, deletions at 21) reads that tombstone as a fresh local
deletion and deletes the record from the server: the server record with id 1
present after pass one is gone after pass two. -/
theorem sync_second_pass_deletes_server_record :
    (∃ c ∈ ((sync 10 11 twoPassStart).2.1).server.cals, ∃ it ∈ c.items, it.id = 1) ∧
    (∀ c ∈ ((sync 20 21 ((sync 10 11 twoPassStart).2.1)).2.1).server.cals,
      ∀ it ∈ c.items, it.id ≠ 1) := by
  decide

/-- Claim C3: after a pass that completes without an unrecoverable error, the
checkpoint stored in the local source equals the pass's start time (the
instant of the step-1 read), independent of the in-pass clock `now`, and —
given that the pass does not start before the previous checkpoint — the new
checkpoint is never earlier than the old one. -/
theorem sync_checkpoint_pass_start (passStart now : Timestamp) (p : Provider)
    (hreach : p.server.reachable = true)
    (hclock : ∀ t0, p.localSource.lastSync = some t0 → t0 ≤ passStart) :
    (sync passStart now p).2.1.localSource.lastSync = some passStart ∧
    ∀ t0 t1, p.localSource.lastSync = some t0 →
      (sync passStart now p).2.1.localSource.lastSync = some t1 → t0 ≤ t1 := by
  have hsync : (sync passStart now p).2.1.localSource.lastSync = some passStart := by
    simp [sync, getCalendarsMut, hreach]
  refine ⟨hsync, ?_⟩
  intro t0 t1 h0 h1
  rw [hsync] at h1
  have ht1 : passStart = t1 := by simpa using h1
  exact ht1 ▸ hclock t0 h0

/-- A concrete reachable provider with checkpoint 3, for the C3 witness. -/
def checkpointDemo : Provider :=
  { server := { reachable := true, cals := [] }, localSource := { cals := [], lastSync := some 3 } }

/-- Witness for C3 at a concrete provider. -/
theorem sync_checkpoint_pass_start_witness :
    (sync 10 11 checkpointDemo).2.1.localSource.lastSync = some 10 ∧
    ∀ t0 t1, checkpointDemo.localSource.lastSync = some t0 →
      (sync 10 11 checkpointDemo).2.1.localSource.lastSync = some t1 → t0 ≤ t1 :=
  sync_checkpoint_pass_start 10 11 checkpointDemo rfl
    (by intro t0 h; have h2 : (3 : Nat) = t0 := Option.some.inj h; subst h2; decide)

/-- Claim C4 (refuted): the set of locally modified records the push phase
uses is NOT computed from the pre-pass snapshot of the local collection: at
provider.rs line 84 it is read only after the pull-phase removals of line 79
have mutated the local calendar.  Concrete input: one record (id 1) modified
on both sides since checkpoint 3; the snapshot modified-set holds the local
version, but the set actually used is empty because the pull already removed
the record. -/
theorem localModUsed_ne_snapshot :
    localModUsed (some 3) 11
        { url := 0, items := [{ id := 1, name := "", lastModified := 5, completed := false }],
          deleted := [] }
        { url := 0, items := [{ id := 1, name := "", lastModified := 4, completed := false }],
          deleted := [] }
      ≠ Calendar.getTasksModifiedSince
          { url := 0, items := [{ id := 1, name := "", lastModified := 4, completed := false }],
            deleted := [] } (some 3) := by
  decide

/-- Claim C4 (amended): the remote-side inputs of the classification
(`server_mod`, `server_del`, `local_del`) are taken from the pre-mutation
snapshot, but the locally-modified set is computed after the remote-driven
removals of line 79: it equals the snapshot modified-set minus the
identities the pull phase removes from the local calendar. -/
theorem localModUsed_eq_snapshot_minus_removed (ls : Option Timestamp) (now : Timestamp)
    (s l : Calendar) :
    localModUsed ls now s l
      = (l.getTasksModifiedSince ls).filter
          (fun it => !((pullPlan (s.getTasksModifiedSince ls) (serverDelOf ls s)).1.any
            (fun j => it.id == j))) := by
  unfold localModUsed localAfterPull
  cases ls with
  | none =>
    simp only [Calendar.getTasksModifiedSince, removeFromCalendar_items]
  | some t =>
    simp only [Calendar.getTasksModifiedSince, removeFromCalendar_items, List.filter_filter]
    apply List.filter_congr
    intro a _
    rw [Bool.and_comm]

/-- Claim C8: when listing the remote source's calendars fails, `sync`
returns the error, performs no reconciliation, and leaves the provider —
in particular the local source's checkpoint — untouched. -/
theorem sync_unreachable_fatal (passStart now : Timestamp) (p : Provider)
    (h : p.server.reachable = false) :
    sync passStart now p = (.error .sourceUnreachable, p, []) := by
  simp [sync, getCalendarsMut, h]

/-- A concrete unreachable provider with checkpoint 2, for the C8 witness. -/
def unreachableDemo : Provider :=
  { server := { reachable := false, cals := [] }, localSource := { cals := [], lastSync := some 2 } }

/-- Witness for C8 at a concrete provider. -/
theorem sync_unreachable_fatal_witness :
    sync 4 5 unreachableDemo = (.error .sourceUnreachable, unreachableDemo, []) :=
  sync_unreachable_fatal 4 5 unreachableDemo rfl

/-- Claim C9: a server calendar with no local counterpart is reported in the
log (the line-49 error entry), that pair is skipped (the server calendar is
passed through untouched and the local calendars are left as they are), the
remaining pairs are still processed, and the condition is not fatal: a sync
pass on a reachable server always returns ok. -/
theorem sync_unpaired_reported_skipped (ls : Option Timestamp) (now : Timestamp)
    (c : Calendar) (rest locals : List Calendar)
    (h : getCalendarMut locals c.url = none) :
    syncCals ls now (c :: rest) locals
      = (c :: (syncCals ls now rest locals).1,
         (syncCals ls now rest locals).2.1,
         .todoUnpaired c.url :: (syncCals ls now rest locals).2.2) ∧
    ∀ (passStart now2 : Timestamp) (p : Provider), p.server.reachable = true →
      (sync passStart now2 p).1 = .ok () := by
  constructor
  · rw [syncCals, h]
  · intro passStart now2 p hr
    simp [sync, getCalendarsMut, hr]

/-- An empty calendar at url 0, and a provider whose server holds it while
the local side has no calendars, for the C9 witness. -/
def unpairedCal : Calendar := { url := 0, items := [], deleted := [] }

def unpairedDemo : Provider :=
  { server := { reachable := true, cals := [unpairedCal] },
    localSource := { cals := [], lastSync := some 3 } }

/-- Witness for C9 at a concrete state: one unpaired server calendar, no
local calendars at all. -/
theorem sync_unpaired_reported_skipped_witness :
    syncCals (some 3) 7 [unpairedCal] [] = ([unpairedCal], [], [.todoUnpaired 0]) ∧
    (sync 8 9 unpairedDemo).1 = .ok () :=
  ⟨(sync_unpaired_reported_skipped (some 3) 7 unpairedCal [] [] rfl).1,
   (sync_unpaired_reported_skipped (some 3) 7 unpairedCal [] [] rfl).2 8 9 unpairedDemo rfl⟩

/-- First-sync scenario used against claim C10: checkpoint absent; one paired
calendar; the server holds a record (id 1, lastModified 5) and the local side
holds a stale copy of the same record (lastModified 1). -/
def firstSyncStart : Provider :=
  { server :=
      { reachable := true,
        cals :=
          [{ url := 0,
             items := [{ id := 1, name := "", lastModified := 5, completed := false }],
             deleted := [] }] },
    localSource :=
      { cals :=
          [{ url := 0,
             items := [{ id := 1, name := "", lastModified := 1, completed := false }],
             deleted := [] }],
        lastSync := none } }

/-- Claim C10 (refuted): on a first-ever sync the deletion sets are indeed
empty, but the pass still removes records from the local collection: the
always-true conflict check of line 72 queues every id of
`modifiedSince(none)` — i.e. every server record — for removal from the
local calendar before the server version is re-added.  Concretely the local
calendar ends the pass with a fresh tombstone. -/
theorem first_sync_removes_from_local :
    ((sync 10 11 firstSyncStart).2.1).localSource.cals ≠ firstSyncStart.localSource.cals ∧
    ∃ c ∈ ((sync 10 11 firstSyncStart).2.1).localSource.cals, c.deleted ≠ [] := by
  decide

/-- Claim C10 (amended): on a first-ever sync both deletion sets are empty
and nothing is ever removed from the remote collection (its tombstones are
untouched); the only removals are on the local side, and they are exactly
the identities of the server's `modifiedSince(none)` set (every server
record), each immediately re-added with the server's version; all other
mutations are additions/copies. -/
theorem first_sync_empty_deletion_sets (now : Timestamp) (s l : Calendar) :
    serverDelOf none s = [] ∧
    localDelOf none l = [] ∧
    (pushDelPlan (s.getTasksModifiedSince none) (localDelOf none l)).1 = [] ∧
    ((syncCal none now s l).1).deleted = s.deleted ∧
    (pullPlan (s.getTasksModifiedSince none) (serverDelOf none s)).1
      = (s.getTasksModifiedSince none).map Item.id := by
  refine ⟨rfl, rfl, rfl, ?_, ?_⟩
  · rw [syncCal_server, moveToCalendar_deleted]
    rfl
  · rw [pullPlan_char]
    simp [serverDelOf]

theorem onlyAt_congr {i : ItemId} {v : Item} {l : List Item} (hv : v.id = i)
    (h : OnlyAt v.id v l) : OnlyAt i v l :=
  ⟨hv, h.2.1, fun it hit hid => h.2.2 it hit (hid.trans hv.symm)⟩

/-- Claim C1: for an identity modified on both sides since the checkpoint,
`sync` applies the remote's version to the local collection (it becomes the
unique record with that identity there), discards the local edit (the unique
record with that identity on the remote is still the remote's version — the
local one is never pushed), and logs the conflict.  No hypothesis relates
the two last-modified timestamps: the remote wins regardless of which is
numerically larger. -/
theorem sync_conflict_remote_wins (t0 now : Timestamp) (s l : Calendar) (i : ItemId)
    (vs vl : Item)
    (hnds : (s.items.map Item.id).Nodup)
    (hsmem : vs ∈ s.items) (hsid : vs.id = i) (hsmod : t0 < vs.lastModified)
    (hlmem : vl ∈ l.items) (hlid : vl.id = i) (hlmod : t0 < vl.lastModified) :
    OnlyAt i vs ((syncCal (some t0) now s l).2.1).items ∧
    OnlyAt i vs ((syncCal (some t0) now s l).1).items ∧
    LogEntry.conflictServerWins i ∈ (syncCal (some t0) now s l).2.2 := by
  refine ⟨onlyAt_congr hsid (serverWins_local t0 now s l vs hnds hsmem hsmod),
          onlyAt_congr hsid (serverWins_server t0 now s l vs hnds hsmem hsmod), ?_⟩
  rw [syncCal_logs, pullPlan_char]
  refine List.mem_append.mpr (Or.inl (List.mem_append.mpr (Or.inl ?_)))
  exact List.mem_map.mpr ⟨vs, mem_getTasksModifiedSince hsmem hsmod, by rw [hsid]⟩

/-- Concrete calendars for the C1 witness: the same identity renamed on both
sides since checkpoint 3, the local edit being the numerically newer one. -/
def conflictDemoS : Calendar :=
  { url := 0, items := [{ id := 1, name := "a", lastModified := 5, completed := false }], deleted := [] }

def conflictDemoL : Calendar :=
  { url := 0, items := [{ id := 1, name := "b", lastModified := 9, completed := false }], deleted := [] }

/-- Witness for C1: even though the local timestamp (9) is larger than the
remote one (5), the remote version wins on both sides and the conflict is
logged. -/
theorem sync_conflict_remote_wins_witness :
    OnlyAt 1 { id := 1, name := "a", lastModified := 5, completed := false }
      ((syncCal (some 3) 7 conflictDemoS conflictDemoL).2.1).items ∧
    OnlyAt 1 { id := 1, name := "a", lastModified := 5, completed := false }
      ((syncCal (some 3) 7 conflictDemoS conflictDemoL).1).items ∧
    LogEntry.conflictServerWins 1 ∈ (syncCal (some 3) 7 conflictDemoS conflictDemoL).2.2 :=
  sync_conflict_remote_wins 3 7 conflictDemoS conflictDemoL 1
    { id := 1, name := "a", lastModified := 5, completed := false }
    { id := 1, name := "b", lastModified := 9, completed := false }
    (by decide) (by decide) (by decide) (by decide) (by decide) (by decide) (by decide)

/-- Claim C5: an identity deleted on exactly one side since the checkpoint
(tombstoned after the checkpoint, no longer present there) and not modified
on the other side ends up absent from both collections. -/
theorem sync_deletion_propagation (t0 now : Timestamp) (s l : Calendar) (i : ItemId)
    (h :
      ((∃ p ∈ s.deleted, p.2 = i ∧ t0 < p.1) ∧ NoId i s.items ∧
        (∀ it ∈ l.items, it.id = i → it.lastModified ≤ t0))
      ∨
      ((∃ p ∈ l.deleted, p.2 = i ∧ t0 < p.1) ∧ NoId i l.items ∧
        (∀ it ∈ s.items, it.id = i → it.lastModified ≤ t0))) :
    NoId i ((syncCal (some t0) now s l).1).items ∧
    NoId i ((syncCal (some t0) now s l).2.1).items := by
  rcases h with ⟨hdel, hnos, hlold⟩ | ⟨hdel, hnol, hsold⟩
  · have hNoSm : ∀ w ∈ s.getTasksModifiedSince (some t0), w.id ≠ i :=
      noId_getTasksModifiedSince hnos
    have hpull : i ∈ (pullPlan (s.getTasksModifiedSince (some t0))
        (serverDelOf (some t0) s)).1 := by
      rw [pullPlan_char]
      exact List.mem_append.mpr (Or.inl (mem_getItemsDeletedSince_of_pair hdel))
    have hNoLocal1 : NoId i ((localAfterPull (some t0) now s l).items) :=
      noId_localAfterPull _ _ _ _ hpull
    have hNoUsed : NoId i (localModUsed (some t0) now s l) :=
      fun it hit => hNoLocal1 it (getTasksModifiedSince_subset it hit)
    have hAdds : ∀ w ∈ (pushModPlan (s.getTasksModifiedSince (some t0))
        (localModUsed (some t0) now s l)).1, w.id ≠ i := by
      intro w hw
      rw [pushModPlan_char] at hw
      exact hNoUsed w (List.mem_filter.mp hw).1
    constructor
    · rw [syncCal_server]
      refine noId_moveToCalendar hAdds ?_
      intro it hit
      exact hnos it (removeFromCalendar_subset _ _ _ it hit)
    · rw [syncCal_local, pullPlan_char]
      exact noId_moveToCalendar hNoSm hNoLocal1
  · have hsmfalse := serverMod_any_eq_false hsold
    have hNoSm := noId_of_any_eq_false hsmfalse
    have hNoLocal1 : NoId i ((localAfterPull (some t0) now s l).items) :=
      fun it hit => hnol it (localAfterPull_subset _ _ _ _ it hit)
    constructor
    · exact localDeleteWins_server t0 now s l i hdel hsold hnol
    · rw [syncCal_local, pullPlan_char]
      exact noId_moveToCalendar hNoSm hNoLocal1

/-- Concrete calendars for the C5 witness: identity 1 tombstoned on the
remote at time 5 (after checkpoint 3), while the local copy is unmodified
since the checkpoint. -/
def delPropDemoS : Calendar := { url := 0, items := [], deleted := [(5, 1)] }

def delPropDemoL : Calendar :=
  { url := 0, items := [{ id := 1, name := "c", lastModified := 2, completed := false }], deleted := [] }

/-- Witness for C5: after the pass, identity 1 is absent from both sides. -/
theorem sync_deletion_propagation_witness :
    NoId 1 ((syncCal (some 3) 7 delPropDemoS delPropDemoL).1).items ∧
    NoId 1 ((syncCal (some 3) 7 delPropDemoS delPropDemoL).2.1).items :=
  sync_deletion_propagation 3 7 delPropDemoS delPropDemoL 1 (by decide)

/-- Claim C6: an identity modified on exactly one side since the checkpoint
and neither modified nor deleted on the other side ends up, on both sides,
as exactly that modified version. -/
theorem sync_disjoint_edits_no_loss (t0 now : Timestamp) (s l : Calendar) (v : Item)
    (hnds : (s.items.map Item.id).Nodup) (hndl : (l.items.map Item.id).Nodup)
    (h :
      (v ∈ s.items ∧ t0 < v.lastModified ∧
        (∀ it ∈ l.items, it.id = v.id → it.lastModified ≤ t0) ∧
        (∀ p ∈ l.deleted, p.2 = v.id → p.1 ≤ t0))
      ∨
      (v ∈ l.items ∧ t0 < v.lastModified ∧
        (∀ it ∈ s.items, it.id = v.id → it.lastModified ≤ t0) ∧
        (∀ p ∈ s.deleted, p.2 = v.id → p.1 ≤ t0))) :
    OnlyAt v.id v ((syncCal (some t0) now s l).1).items ∧
    OnlyAt v.id v ((syncCal (some t0) now s l).2.1).items := by
  rcases h with ⟨hsmem, hsmod, -, -⟩ | ⟨hlmem, hlmod, hsold, hsdel⟩
  · exact ⟨serverWins_server t0 now s l v hnds hsmem hsmod,
           serverWins_local t0 now s l v hnds hsmem hsmod⟩
  · have hsmfalse := serverMod_any_eq_false hsold
    have hNoSm := noId_of_any_eq_false hsmfalse
    have hsdelnot : v.id ∉ s.getItemsDeletedSince t0 := not_mem_getItemsDeletedSince hsdel
    have hnotpull : ∀ j ∈ (pullPlan (s.getTasksModifiedSince (some t0))
        (serverDelOf (some t0) s)).1, j ≠ v.id := by
      intro j hj hji
      rw [pullPlan_char] at hj
      rcases List.mem_append.mp hj with hj1 | hj1
      · exact hsdelnot (hji ▸ hj1)
      · obtain ⟨w, hw, hwid⟩ := List.mem_map.mp hj1
        exact hNoSm w hw (hwid.trans hji)
    have hloc1 : OnlyAt v.id v ((localAfterPull (some t0) now s l).items) := by
      unfold localAfterPull
      rw [removeFromCalendar_items]
      apply onlyAt_filter _ ?_ ⟨rfl, hlmem, nodup_id_unique hndl hlmem⟩
      simp only [Bool.not_eq_eq_eq_not, Bool.not_true]
      rw [List.any_eq_false]
      intro j hj
      simp only [beq_iff_eq]
      exact fun hh => hnotpull j hj hh.symm
    have hvused : v ∈ localModUsed (some t0) now s l :=
      mem_getTasksModifiedSince hloc1.2.1 hlmod
    have hvadds : v ∈ (pushModPlan (s.getTasksModifiedSince (some t0))
        (localModUsed (some t0) now s l)).1 := by
      rw [pushModPlan_char]
      refine List.mem_filter.mpr ⟨hvused, ?_⟩
      rw [hsmfalse]
      rfl
    have hnd1 : (((localAfterPull (some t0) now s l).items).map Item.id).Nodup := by
      unfold localAfterPull
      rw [removeFromCalendar_items]
      exact nodupIds_filter _ hndl
    have hnd2 : ((localModUsed (some t0) now s l).map Item.id).Nodup :=
      nodupIds_getTasksModifiedSince hnd1
    have hnd3 : (((pushModPlan (s.getTasksModifiedSince (some t0))
        (localModUsed (some t0) now s l)).1).map Item.id).Nodup := by
      rw [pushModPlan_char]
      exact nodupIds_filter _ hnd2
    constructor
    · rw [syncCal_server]
      exact onlyAt_moveToCalendar_mem hnd3 hvadds
    · rw [syncCal_local, pullPlan_char]
      exact onlyAt_moveToCalendar_other hNoSm hloc1

/-- Concrete calendars for the C6 witness: identity 1 modified locally
(lastModified 5) after checkpoint 3, while the remote copy is the stale
original (lastModified 2) and nothing was deleted anywhere. -/
def disjointDemoS : Calendar :=
  { url := 0, items := [{ id := 1, name := "o", lastModified := 2, completed := false }], deleted := [] }

def disjointDemoL : Calendar :=
  { url := 0, items := [{ id := 1, name := "n", lastModified := 5, completed := true }], deleted := [] }

/-- Witness for C6: the locally modified record is pushed and ends up as the
unique version on both sides. -/
theorem sync_disjoint_edits_no_loss_witness :
    OnlyAt 1 { id := 1, name := "n", lastModified := 5, completed := true }
      ((syncCal (some 3) 7 disjointDemoS disjointDemoL).1).items ∧
    OnlyAt 1 { id := 1, name := "n", lastModified := 5, completed := true }
      ((syncCal (some 3) 7 disjointDemoS disjointDemoL).2.1).items :=
  sync_disjoint_edits_no_loss 3 7 disjointDemoS disjointDemoL
    { id := 1, name := "n", lastModified := 5, completed := true }
    (by decide) (by decide) (by decide)

/-- Claim C7: for an identity deleted locally since the checkpoint, if the
server also modified it since the checkpoint, the record is not deleted from
the server (the server copy survives) and the server's new version is
resurrected into the local collection; if the server did not modify it, the
identity is deleted from the server. -/
theorem sync_local_delete_vs_remote_mod (t0 now : Timestamp) (s l : Calendar) (i : ItemId)
    (hdel : ∃ p ∈ l.deleted, p.2 = i ∧ t0 < p.1)
    (hnds : (s.items.map Item.id).Nodup) :
    (∀ vs ∈ s.items, vs.id = i → t0 < vs.lastModified →
        vs ∈ ((syncCal (some t0) now s l).1).items ∧
        vs ∈ ((syncCal (some t0) now s l).2.1).items) ∧
    ((∀ it ∈ s.items, it.id = i → it.lastModified ≤ t0) → NoId i l.items →
      NoId i ((syncCal (some t0) now s l).1).items) := by
  constructor
  · intro vs hmem hid hmod
    exact ⟨(serverWins_server t0 now s l vs hnds hmem hmod).2.1,
           (serverWins_local t0 now s l vs hnds hmem hmod).2.1⟩
  · intro hsold hnol
    exact localDeleteWins_server t0 now s l i hdel hsold hnol

/-- Concrete calendars for the C7 witness: identity 1 tombstoned locally at
time 5 (after checkpoint 3) while the server modified it (lastModified 6). -/
def resurrectDemoS : Calendar :=
  { url := 0, items := [{ id := 1, name := "sv", lastModified := 6, completed := false }], deleted := [] }

def resurrectDemoL : Calendar := { url := 0, items := [], deleted := [(5, 1)] }

/-- Witness for C7 at a concrete state. -/
theorem sync_local_delete_vs_remote_mod_witness :
    (∀ vs ∈ resurrectDemoS.items, vs.id = 1 → 3 < vs.lastModified →
        vs ∈ ((syncCal (some 3) 7 resurrectDemoS resurrectDemoL).1).items ∧
        vs ∈ ((syncCal (some 3) 7 resurrectDemoS resurrectDemoL).2.1).items) ∧
    ((∀ it ∈ resurrectDemoS.items, it.id = 1 → it.lastModified ≤ 3) →
      NoId 1 resurrectDemoL.items →
      NoId 1 ((syncCal (some 3) 7 resurrectDemoS resurrectDemoL).1).items) :=
  sync_local_delete_vs_remote_mod 3 7 resurrectDemoS resurrectDemoL 1
    (by decide) (by decide)

end KitchenFridge
